import Mathlib

/-
Verification of openage's unit attribute store, `libopenage/unit/attribute.h`.

The header defines:
 * the `attr_type` enumeration of attribute kinds,
 * the polymorphic `AttributeContainer` base (with `shared()` and `copy()`),
 * the 15 concrete `Attribute<attr_type::...>` specializations, each inheriting
   from `SharedAttributeContainer` or `UnsharedAttributeContainer`, and
 * the `Attributes` collection (a `std::map<attr_type, std::shared_ptr<AttributeContainer>>`).

The bodies of the `Attributes` methods (`add`, `add_copies`, `remove`, `has`,
`get`) live in `attribute.cpp`, which is not part of the reviewed sources; those
operations are modelled from the specification (each such definition is marked
`Modelled from the spec:`).  Everything about the concrete variants
(classification, copy, constructors) is translated directly from the header.

Modelling conventions:
 * `shared_ptr<AttributeContainer>` cells are modelled by an explicit heap
   (`Heap`, a list of container values) addressed by natural-number references,
   so that cloning versus aliasing is observable (deep-copy independence).
 * C++ `float`/`double` fields are only constructed, copied and stored by the
   code under verification (no arithmetic is performed on them here), so they
   are modelled as exact rationals.
 * External value types (Player, UnitType, UnitReference, game_resource,
   object_state, unit_classes, ResourceBundle) are treated by the store as
   values it copies but never inspects; they are modelled by identifiers.
-/

namespace OpenageAttr

/-- `attr_type` — list of attribute types (attribute.h, lines 59–75). -/
inductive attr_type where
  | owner
  | damaged
  | hitpoints
  | armor
  | attack
  | heal
  | speed
  | direction
  | projectile
  | building
  | dropsite
  | resource
  | worker
  | multitype
  | garrison
deriving DecidableEq, Fintype

/-- `attack_stance` enumeration (attribute.h, lines 77–82; spelling as in the source). -/
inductive attack_stance where
  | aggresive
  | devensive
  | stand_ground
  | do_nothing
deriving DecidableEq

/-- `Player &` — reference to an externally owned Player, modelled by an identifier. -/
abbrev PlayerRef := Nat

/-- `UnitType *` — pointer to an externally owned UnitType (`0` models null). -/
abbrev UnitTypeRef := Nat

/-- `UnitReference` — weak reference to a unit; `none` models the
default-constructed (invalid) reference. -/
abbrev UnitRef := Option Nat

/-- `coord::phys_t` — fixed-point integer coordinate scalar. -/
abbrev phys_t := Int

/-- `coord::phys3` — a 3-D position in physics space. -/
structure phys3 where
  ne : Int
  se : Int
  up : Int
deriving DecidableEq

/-- `coord::phys3_delta` — a 3-D movement delta in physics space. -/
structure phys3_delta where
  ne : Int
  se : Int
  up : Int
deriving DecidableEq

/-- `game_resource` — external resource-kind enumeration, modelled by an identifier. -/
abbrev game_resource := Nat

/-- `object_state` — external terrain-object state enumeration, modelled by an identifier. -/
abbrev object_state := Nat

/-- `gamedata::unit_classes` — external unit-class enumeration, modelled by an identifier. -/
abbrev unit_classes := Nat

/-- `ResourceBundle` — external per-resource bundle value; the store only copies
it, never inspects it, so it is modelled by an identifier. -/
abbrev ResourceBundle := Nat

/-- `typeamount_map` — `std::unordered_map<int, unsigned int>`, a mapping from a
type id to an amount (attribute.h, line 172). -/
abbrev typeamount_map := List (Int × Nat)

/-- The closed family of concrete attribute payloads: one case per
`Attribute<attr_type::...>` specialization of attribute.h, carrying exactly the
data members of that specialization (lines 216–540).  Field order follows the
source. -/
inductive AttributeContainer where
  /-- `Attribute<attr_type::owner>` — `Player &player` (line 227). -/
  | owner (player : PlayerRef)
  /-- `Attribute<attr_type::hitpoints>` — `unsigned int hp; float hp_bar_height` (lines 248–249). -/
  | hitpoints (hp : Nat) (hp_bar_height : Rat)
  /-- `Attribute<attr_type::damaged>` — `unsigned int hp` (line 270). -/
  | damaged (hp : Nat)
  /-- `Attribute<attr_type::armor>` — `typeamount_map armor` (line 284). -/
  | armor (armor : typeamount_map)
  /-- `Attribute<attr_type::attack>` — `UnitType *ptype; coord::phys_t range;
  coord::phys_t init_height; typeamount_map damage; attack_stance stance`
  (lines 311–317). -/
  | attack (ptype : UnitTypeRef) (range : phys_t) (init_height : phys_t)
      (damage : typeamount_map) (stance : attack_stance)
  /-- `Attribute<attr_type::heal>` — `coord::phys_t range; unsigned int life;
  float rate` (lines 339–349). -/
  | heal (range : phys_t) (life : Nat) (rate : Rat)
  /-- `Attribute<attr_type::speed>` — `coord::phys_t unit_speed` (line 365). -/
  | speed (unit_speed : phys_t)
  /-- `Attribute<attr_type::direction>` — `coord::phys3_delta unit_dir` (line 379). -/
  | direction (unit_dir : phys3_delta)
  /-- `Attribute<attr_type::projectile>` — `float projectile_arc;
  UnitReference launcher; bool launched` (lines 394–396). -/
  | projectile (projectile_arc : Rat) (launcher : UnitRef) (launched : Bool)
  /-- `Attribute<attr_type::building>` — `float completed; int foundation_terrain;
  object_state completion_state; UnitType *pp; coord::phys3 gather_point`
  (lines 411–424). -/
  | building (completed : Rat) (foundation_terrain : Int)
      (completion_state : object_state) (pp : UnitTypeRef) (gather_point : phys3)
  /-- `Attribute<attr_type::dropsite>` — `std::vector<game_resource> resource_types` (line 444). -/
  | dropsite (resource_types : List game_resource)
  /-- `Attribute<attr_type::resource>` — `game_resource resource_type; double amount` (lines 466–467). -/
  | resource (resource_type : game_resource) (amount : Rat)
  /-- `Attribute<attr_type::worker>` — `double capacity; ResourceBundle gather_rate` (lines 486–492). -/
  | worker (capacity : Rat) (gather_rate : ResourceBundle)
  /-- `Attribute<attr_type::multitype>` — `std::unordered_map<gamedata::unit_classes, UnitType *> types` (line 519). -/
  | multitype (types : List (unit_classes × UnitTypeRef))
  /-- `Attribute<attr_type::garrison>` — `std::vector<UnitReference> content` (line 539). -/
  | garrison (content : List UnitRef)
deriving DecidableEq

namespace AttributeContainer

/-- The `attr_type type` field of `AttributeContainer` (line 100): every
specialization passes its own tag to the base-class constructor, so the tag is
determined by the concrete variant. -/
def type : AttributeContainer → attr_type
  | .owner _ => .owner
  | .hitpoints _ _ => .hitpoints
  | .damaged _ => .damaged
  | .armor _ => .armor
  | .attack _ _ _ _ _ => .attack
  | .heal _ _ _ => .heal
  | .speed _ => .speed
  | .direction _ => .direction
  | .projectile _ _ _ => .projectile
  | .building _ _ _ _ _ => .building
  | .dropsite _ => .dropsite
  | .resource _ _ => .resource
  | .worker _ _ => .worker
  | .multitype _ => .multitype
  | .garrison _ => .garrison

/-- `AttributeContainer::shared()` — each specialization inherits it from either
`SharedAttributeContainer` (returns `true`, lines 180–190) or
`UnsharedAttributeContainer` (returns `false`, lines 198–208); the answer is
which base class the specialization derives from. -/
def shared : AttributeContainer → Bool
  | .owner _ => true
  | .hitpoints _ _ => true
  | .damaged _ => false
  | .armor _ => true
  | .attack _ _ _ _ _ => false
  | .heal _ _ _ => true
  | .speed _ => true
  | .direction _ => false
  | .projectile _ _ _ => false
  | .building _ _ _ _ _ => false
  | .dropsite _ => true
  | .resource _ _ => false
  | .worker _ _ => true
  | .multitype _ => true
  | .garrison _ => false

/-- `AttributeContainer::copy()` — every specialization overrides it as
`std::make_shared<Attribute<T>>(*this)`, i.e. a member-wise copy of all its
fields into a fresh object (the fresh allocation is the heap's concern; this is
the value copied into the new cell). -/
def copy : AttributeContainer → AttributeContainer
  | .owner p => .owner p
  | .hitpoints hp bh => .hitpoints hp bh
  | .damaged hp => .damaged hp
  | .armor a => .armor a
  | .attack pt r ih d st => .attack pt r ih d st
  | .heal r l ra => .heal r l ra
  | .speed sp => .speed sp
  | .direction d => .direction d
  | .projectile arc la lb => .projectile arc la lb
  | .building c ft cs pp gp => .building c ft cs pp gp
  | .dropsite ts => .dropsite ts
  | .resource rt am => .resource rt am
  | .worker cap gr => .worker cap gr
  | .multitype ts => .multitype ts
  | .garrison cs => .garrison cs

/-- The `launched` field of the projectile variant (line 396); `none` on other variants. -/
def launched : AttributeContainer → Option Bool
  | .projectile _ _ l => some l
  | _ => none

/-- The `projectile_arc` field of the projectile variant (line 394); `none` on other variants. -/
def projectile_arc : AttributeContainer → Option Rat
  | .projectile arc _ _ => some arc
  | _ => none

end AttributeContainer

/-- `Attribute<attr_type::projectile>::Attribute(float arc)` (lines 384–388):
initializes `projectile_arc{arc}` and `launched{false}`; the `launcher` member
is default-constructed, i.e. an invalid `UnitReference`. -/
def mkProjectileAttribute (arc : Rat) : AttributeContainer :=
  .projectile arc none false

/-- A heap of `shared_ptr<AttributeContainer>` cells: cell `r` holds the pointee
of reference `r`.  Allocation (`std::make_shared`) appends a fresh cell. -/
structure Heap where
  cells : List AttributeContainer
deriving DecidableEq

namespace Heap

/-- Dereference: read the container stored in cell `r` (none for a dangling reference). -/
def read (h : Heap) (r : Nat) : Option AttributeContainer :=
  h.cells[r]?

/-- `std::make_shared`: allocate a fresh cell holding `a`; the fresh reference
is `h.cells.length`. -/
def alloc (h : Heap) (a : AttributeContainer) : Heap :=
  ⟨h.cells ++ [a]⟩

/-- In-place mutation of the object in cell `r` (e.g. assigning to a data
member through a stored pointer). -/
def write (h : Heap) (r : Nat) (a : AttributeContainer) : Heap :=
  ⟨h.cells.set r a⟩

end Heap

/-- One entry of the `attrs` map: a key of the `std::map` together with the
reference held by the mapped `shared_ptr`. -/
abbrev Entry := attr_type × Nat

/-- Lookup in the entry list by tag (`std::map::find`), first match. -/
def lookupTag : List Entry → attr_type → Option Nat
  | [], _ => none
  | (k, v) :: rest, t => if t = k then some v else lookupTag rest t

/-- Keyed insertion (`map[key] = value`): replace the entry whose key matches,
otherwise append a new entry. -/
def addPair : List Entry → attr_type → Nat → List Entry
  | [], k, v => [(k, v)]
  | (k', v') :: rest, k, v =>
    if k = k' then (k, v) :: rest else (k', v') :: addPair rest k v

/-- Keyed erasure (`std::map::erase`): drop the entry whose key matches. -/
def removePair : List Entry → attr_type → List Entry
  | [], _ => []
  | (k', v') :: rest, k =>
    if k = k' then rest else (k', v') :: removePair rest k

/-- Number of entries stored under tag `t`. -/
def countTag (l : List Entry) (t : attr_type) : Nat :=
  l.countP (fun p => p.1 == t)

/-- `Attributes` — contains a group of attributes; can contain only one
attribute of each type (attribute.h, lines 117–166).  The private member
`attrs : std::map<attr_type, std::shared_ptr<AttributeContainer>>` is modelled
as the map's entry list, holding heap references. -/
structure Attributes where
  attrs : List Entry
deriving DecidableEq

namespace Attributes

/-- Modelled from the spec: `Attributes::add` — "inserts `value` under
`value.tag()`.  If an entry already exists for that tag, it is replaced (the
old value is dropped).  No return value.  No error condition — always
succeeds."  The body is in attribute.cpp, which is not among the reviewed
sources.  The stored `shared_ptr` itself is kept (no copy is made on `add`).
A dangling reference (whose cell cannot be read) leaves the set unchanged. -/
def add (s : Attributes) (h : Heap) (r : Nat) : Attributes :=
  match h.read r with
  | some a => ⟨addPair s.attrs a.type r⟩
  | none => s

/-- Modelled from the spec: `Attributes::has` — "membership query, no side
effects."  The body is in attribute.cpp, which is not among the reviewed
sources. -/
def has (s : Attributes) (t : attr_type) : Bool :=
  (lookupTag s.attrs t).isSome

/-- Modelled from the spec: `Attributes::get` — "returns a reference to the
stored value if present, else signals absence."  The body is in attribute.cpp,
which is not among the reviewed sources.  Returns the stored `shared_ptr`
(a heap reference). -/
def get (s : Attributes) (t : attr_type) : Option Nat :=
  lookupTag s.attrs t

/-- The container stored for tag `t`: `get` followed by dereferencing the
returned pointer. -/
def getValue (s : Attributes) (h : Heap) (t : attr_type) : Option AttributeContainer :=
  match lookupTag s.attrs t with
  | some r => h.read r
  | none => none

/-- Modelled from the spec: `Attributes::remove` — "removes the entry for `t`
if present; returns whether an entry was actually removed.  Idempotent —
removing an absent tag is not an error."  The body is in attribute.cpp, which
is not among the reviewed sources. -/
def remove (s : Attributes) (t : attr_type) : Attributes × Bool :=
  (⟨removePair s.attrs t⟩, s.has t)

end Attributes

/-- Modelled from the spec: the loop of the filtering
`Attributes::add_copies(attrs, shared, unshared)` — "for every entry in
`source` … an entry is cloned and added only if
`(entry.is_shared() && include_shared) || (!entry.is_shared() && include_unshared)`."
The body is in attribute.cpp, which is not among the reviewed sources.
Each selected entry is cloned (`copy()` allocates a fresh cell holding the
member-wise copy) and the clone is added to the destination entry list under
its own tag.  A dangling source entry is skipped. -/
def add_copies_loop (sh un : Bool) : Heap → List Entry → List Entry → Heap × List Entry
  | h, dst, [] => (h, dst)
  | h, dst, (_, r) :: rest =>
    match h.read r with
    | none => add_copies_loop sh un h dst rest
    | some a =>
      if (a.shared && sh) || (!a.shared && un) then
        add_copies_loop sh un (h.alloc a.copy)
          (addPair dst a.copy.type h.cells.length) rest
      else
        add_copies_loop sh un h dst rest

/-- Modelled from the spec: the loop of the unconditional
`Attributes::add_copies(attrs)` — "for every entry in `source`, computes
`entry.clone()` and performs `add` with the result on self."  The body is in
attribute.cpp, which is not among the reviewed sources. -/
def add_copies_all_loop : Heap → List Entry → List Entry → Heap × List Entry
  | h, dst, [] => (h, dst)
  | h, dst, (_, r) :: rest =>
    match h.read r with
    | none => add_copies_all_loop h dst rest
    | some a =>
      add_copies_all_loop (h.alloc a.copy)
        (addPair dst a.copy.type h.cells.length) rest

namespace Attributes

/-- Modelled from the spec: `Attributes::add_copies(attrs, shared, unshared)`
(three-argument overload, attribute.h line 140). -/
def add_copies_filtered (s : Attributes) (h : Heap) (other : Attributes)
    (sh un : Bool) : Heap × Attributes :=
  let p := add_copies_loop sh un h s.attrs other.attrs
  (p.1, ⟨p.2⟩)

/-- Modelled from the spec: `Attributes::add_copies(attrs)` (two-argument
overload, attribute.h line 133). -/
def add_copies (s : Attributes) (h : Heap) (other : Attributes) : Heap × Attributes :=
  let p := add_copies_all_loop h s.attrs other.attrs
  (p.1, ⟨p.2⟩)

end Attributes

/-- One mutating operation on an `Attributes` set, for stating invariants over
arbitrary operation sequences. -/
inductive AttrOp where
  | addOp (r : Nat)
  | addCopiesOp (src : Attributes)
  | addCopiesFilteredOp (src : Attributes) (sh un : Bool)
  | removeOp (t : attr_type)

/-- Run one mutating operation on the state (heap, set). -/
def runOp : Heap × Attributes → AttrOp → Heap × Attributes
  | (h, s), .addOp r => (h, s.add h r)
  | (h, s), .addCopiesOp src => s.add_copies h src
  | (h, s), .addCopiesFilteredOp src sh un => s.add_copies_filtered h src sh un
  | (h, s), .removeOp t => (h, (s.remove t).1)

/-- Run a sequence of mutating operations. -/
def runOps (st : Heap × Attributes) (ops : List AttrOp) : Heap × Attributes :=
  ops.foldl runOp st

/-- The map keys of an entry list. -/
def tagsOf (l : List Entry) : List attr_type :=
  l.map Prod.fst

/-- Every reference stored in the entry list points at an allocated heap cell. -/
def ValidRefs (h : Heap) (l : List Entry) : Prop :=
  ∀ p ∈ l, p.2 < h.cells.length

/-- Every entry is keyed by the tag of the container it references — the
invariant `add` maintains by always keying on `value.tag()`. -/
def WellTagged (h : Heap) (l : List Entry) : Prop :=
  ∀ p ∈ l, ∀ a ∈ h.read p.2, a.type = p.1

instance (h : Heap) (l : List Entry) : Decidable (ValidRefs h l) :=
  inferInstanceAs (Decidable (∀ p ∈ l, p.2 < h.cells.length))

instance (h : Heap) (l : List Entry) : Decidable (WellTagged h l) :=
  inferInstanceAs (Decidable (∀ p ∈ l, ∀ a ∈ h.read p.2, a.type = p.1))

/-! ### Basic lemmas about the entry-list and heap primitives -/

lemma copy_type (a : AttributeContainer) : a.copy.type = a.type := by
  cases a <;> rfl

lemma copy_shared (a : AttributeContainer) : a.copy.shared = a.shared := by
  cases a <;> rfl

lemma lookupTag_addPair_self (l : List Entry) (t : attr_type) (r : Nat) :
    lookupTag (addPair l t r) t = some r := by
  induction l with
  | nil => simp [addPair, lookupTag]
  | cons p rest ih =>
    obtain ⟨k, v⟩ := p
    by_cases hk : t = k
    · simp [addPair, lookupTag, hk]
    · simp [addPair, lookupTag, hk, ih]

lemma lookupTag_addPair_ne (l : List Entry) {t t' : attr_type} (hne : t ≠ t')
    (r : Nat) : lookupTag (addPair l t' r) t = lookupTag l t := by
  induction l with
  | nil => simp [addPair, lookupTag, hne]
  | cons p rest ih =>
    obtain ⟨k, v⟩ := p
    by_cases hk : t' = k
    · subst hk
      simp [addPair, lookupTag, hne]
    · by_cases ht : t = k
      · simp [addPair, lookupTag, hk, ht]
      · simp [addPair, lookupTag, hk, ht, ih]

lemma tagsOf_nil : tagsOf ([] : List Entry) = [] := rfl

lemma tagsOf_cons (p : Entry) (l : List Entry) :
    tagsOf (p :: l) = p.1 :: tagsOf l := rfl

lemma mem_tagsOf_addPair {x : attr_type} (l : List Entry) (k : attr_type)
    (v : Nat) : x ∈ tagsOf (addPair l k v) ↔ x ∈ tagsOf l ∨ x = k := by
  induction l with
  | nil => simp [addPair, tagsOf_cons, tagsOf_nil]
  | cons p rest ih =>
    obtain ⟨k', v'⟩ := p
    by_cases hk : k = k'
    · subst hk
      simp [addPair, tagsOf_cons, List.mem_cons]
      tauto
    · simp only [addPair, if_neg hk, tagsOf_cons, List.mem_cons]
      rw [ih]
      tauto

lemma nodup_tagsOf_addPair {l : List Entry} (hl : (tagsOf l).Nodup)
    (k : attr_type) (v : Nat) : (tagsOf (addPair l k v)).Nodup := by
  induction l with
  | nil => simp [addPair, tagsOf_cons, tagsOf_nil]
  | cons p rest ih =>
    obtain ⟨k', v'⟩ := p
    rw [tagsOf_cons, List.nodup_cons] at hl
    by_cases hk : k = k'
    · subst hk
      rw [addPair, if_pos rfl, tagsOf_cons, List.nodup_cons]
      exact hl
    · rw [addPair, if_neg hk, tagsOf_cons, List.nodup_cons]
      refine ⟨fun hmem => ?_, ih hl.2⟩
      rw [mem_tagsOf_addPair] at hmem
      rcases hmem with hmem | rfl
      · exact hl.1 hmem
      · exact hk rfl

lemma lookupTag_eq_none_iff (l : List Entry) (t : attr_type) :
    lookupTag l t = none ↔ t ∉ tagsOf l := by
  induction l with
  | nil => simp [lookupTag, tagsOf_nil]
  | cons p rest ih =>
    obtain ⟨k, v⟩ := p
    by_cases hk : t = k
    · simp [lookupTag, hk, tagsOf_cons]
    · rw [lookupTag, if_neg hk, ih, tagsOf_cons]
      simp only [List.mem_cons, not_or]
      exact ⟨fun h => ⟨hk, h⟩, fun h => h.2⟩

lemma removePair_of_not_mem {l : List Entry} {t : attr_type}
    (h : t ∉ tagsOf l) : removePair l t = l := by
  induction l with
  | nil => rfl
  | cons p rest ih =>
    obtain ⟨k, v⟩ := p
    rw [tagsOf_cons] at h
    simp only [List.mem_cons, not_or] at h
    rw [removePair, if_neg h.1, ih h.2]

lemma tagsOf_removePair_sublist (l : List Entry) (t : attr_type) :
    (tagsOf (removePair l t)).Sublist (tagsOf l) := by
  induction l with
  | nil => simp [removePair, tagsOf_nil]
  | cons p rest ih =>
    obtain ⟨k, v⟩ := p
    by_cases hk : t = k
    · rw [removePair, if_pos hk, tagsOf_cons]
      exact List.sublist_cons_self _ _
    · rw [removePair, if_neg hk, tagsOf_cons, tagsOf_cons]
      exact List.Sublist.cons₂ _ ih

lemma lookupTag_removePair_self {l : List Entry} (hl : (tagsOf l).Nodup)
    (t : attr_type) : lookupTag (removePair l t) t = none := by
  induction l with
  | nil => simp [removePair, lookupTag]
  | cons p rest ih =>
    obtain ⟨k, v⟩ := p
    rw [tagsOf_cons, List.nodup_cons] at hl
    by_cases hk : t = k
    · subst hk
      rw [removePair, if_pos rfl]
      exact (lookupTag_eq_none_iff rest t).2 hl.1
    · rw [removePair, if_neg hk, lookupTag, if_neg hk]
      exact ih hl.2

lemma countTag_eq_zero_of_not_mem {l : List Entry} {t : attr_type}
    (h : t ∉ tagsOf l) : countTag l t = 0 := by
  induction l with
  | nil => rfl
  | cons p rest ih =>
    obtain ⟨k, v⟩ := p
    rw [tagsOf_cons] at h
    simp only [List.mem_cons, not_or] at h
    have hrest := ih h.2
    have hk : ((k, v).1 == t) = false := by
      simp only [beq_eq_false_iff_ne, ne_eq]
      exact fun hh => h.1 hh.symm
    simp only [countTag] at hrest ⊢
    rw [List.countP_cons, hk]
    simpa using hrest

lemma countTag_addPair_of_nodup {l : List Entry} (hl : (tagsOf l).Nodup)
    (t : attr_type) (r : Nat) : countTag (addPair l t r) t = 1 := by
  induction l with
  | nil => simp [addPair, countTag, List.countP_cons]
  | cons p rest ih =>
    obtain ⟨k, v⟩ := p
    rw [tagsOf_cons, List.nodup_cons] at hl
    by_cases hk : t = k
    · subst hk
      rw [addPair, if_pos rfl]
      have hrest : countTag rest t = 0 := countTag_eq_zero_of_not_mem hl.1
      simp only [countTag] at hrest ⊢
      rw [List.countP_cons]
      simp [hrest]
    · have hk' : ((k, v).1 == t) = false := by
        simp only [beq_eq_false_iff_ne, ne_eq]
        exact fun hh => hk hh.symm
      rw [addPair, if_neg hk]
      have hrest := ih hl.2
      simp only [countTag] at hrest ⊢
      rw [List.countP_cons, hk']
      simpa using hrest

lemma Heap.read_lt_length {h : Heap} {r : Nat} {a : AttributeContainer}
    (hr : h.read r = some a) : r < h.cells.length :=
  (List.getElem?_eq_some.mp hr).1

lemma Heap.read_of_lt {h : Heap} {r : Nat} (hr : r < h.cells.length) :
    h.read r = some h.cells[r] :=
  List.getElem?_eq_getElem hr

lemma Heap.length_alloc (h : Heap) (a : AttributeContainer) :
    (h.alloc a).cells.length = h.cells.length + 1 := by
  simp [Heap.alloc]

lemma Heap.read_alloc_of_lt {h : Heap} {r : Nat} (hr : r < h.cells.length)
    (a : AttributeContainer) : (h.alloc a).read r = h.read r := by
  simp only [Heap.read, Heap.alloc]
  rw [List.getElem?_append_left hr]

lemma Heap.read_alloc_fresh (h : Heap) (a : AttributeContainer) :
    (h.alloc a).read h.cells.length = some a := by
  simp only [Heap.read, Heap.alloc]
  exact List.getElem?_concat_length h.cells a

lemma Heap.read_write_ne {h : Heap} {r r' : Nat} (hne : r ≠ r')
    (a : AttributeContainer) : (h.write r a).read r' = h.read r' := by
  simp only [Heap.read, Heap.write]
  exact List.getElem?_set_ne hne

/-! ### Lemmas about the `add_copies` loops -/

lemma add_copies_loop_length_le (sh un : Bool) (src : List Entry) :
    ∀ (h : Heap) (dst : List Entry),
      h.cells.length ≤ (add_copies_loop sh un h dst src).1.cells.length := by
  induction src with
  | nil => intro h dst; simp [add_copies_loop]
  | cons p rest ih =>
    intro h dst
    obtain ⟨t₀, r₀⟩ := p
    rw [add_copies_loop]
    cases hread : h.read r₀ with
    | none => exact ih h dst
    | some a =>
      by_cases hpred : ((a.shared && sh) || (!a.shared && un)) = true
      · simp only [hpred, if_true]
        calc h.cells.length ≤ (h.alloc a.copy).cells.length := by
              rw [Heap.length_alloc]; omega
          _ ≤ _ := ih _ _
      · simp only [Bool.not_eq_true] at hpred
        simp only [hpred, Bool.false_eq_true, if_false]
        exact ih h dst

lemma add_copies_loop_read_of_lt (sh un : Bool) (src : List Entry) :
    ∀ (h : Heap) (dst : List Entry) (r : Nat), r < h.cells.length →
      (add_copies_loop sh un h dst src).1.read r = h.read r := by
  induction src with
  | nil => intro h dst r _; simp [add_copies_loop]
  | cons p rest ih =>
    intro h dst r hr
    obtain ⟨t₀, r₀⟩ := p
    rw [add_copies_loop]
    cases hread : h.read r₀ with
    | none => exact ih h dst r hr
    | some a =>
      by_cases hpred : ((a.shared && sh) || (!a.shared && un)) = true
      · simp only [hpred, if_true]
        have hr' : r < (h.alloc a.copy).cells.length := by
          rw [Heap.length_alloc]; omega
        rw [ih _ _ r hr', Heap.read_alloc_of_lt hr]
      · simp only [Bool.not_eq_true] at hpred
        simp only [hpred, Bool.false_eq_true, if_false]
        exact ih h dst r hr

lemma add_copies_loop_lookup_not_mem (sh un : Bool) (src : List Entry) :
    ∀ (h : Heap) (dst : List Entry) (t : attr_type),
      ValidRefs h src → WellTagged h src → t ∉ tagsOf src →
      lookupTag (add_copies_loop sh un h dst src).2 t = lookupTag dst t := by
  induction src with
  | nil => intro h dst t _ _ _; simp [add_copies_loop]
  | cons p rest ih =>
    intro h dst t hvalid htag hmem
    obtain ⟨t₀, r₀⟩ := p
    rw [tagsOf_cons] at hmem
    simp only [List.mem_cons, not_or] at hmem
    have hvrest : ValidRefs h rest := fun q hq => hvalid q (List.mem_cons_of_mem _ hq)
    have htrest : WellTagged h rest := fun q hq => htag q (List.mem_cons_of_mem _ hq)
    rw [add_copies_loop]
    cases hread : h.read r₀ with
    | none => exact ih h dst t hvrest htrest hmem.2
    | some a =>
      have htype : a.type = t₀ := htag (t₀, r₀) (List.mem_cons_self _ _) a hread
      by_cases hpred : ((a.shared && sh) || (!a.shared && un)) = true
      · simp only [hpred, if_true]
        have hvrest' : ValidRefs (h.alloc a.copy) rest := by
          intro q hq
          rw [Heap.length_alloc]
          exact Nat.lt_succ_of_lt (hvrest q hq)
        have htrest' : WellTagged (h.alloc a.copy) rest := by
          intro q hq b hb
          rw [Heap.read_alloc_of_lt (hvrest q hq)] at hb
          exact htrest q hq b hb
        rw [ih _ _ t hvrest' htrest' hmem.2]
        rw [copy_type, htype]
        exact lookupTag_addPair_ne dst hmem.1 _
      · simp only [Bool.not_eq_true] at hpred
        simp only [hpred, Bool.false_eq_true, if_false]
        exact ih h dst t hvrest htrest hmem.2

/-- Per-entry effect of the filtering copy loop: a source entry whose
container passes the filter ends up bound (in the resulting entry list) to a
fresh cell holding the member-wise copy of its container; an entry that fails
the filter leaves the destination's binding for its tag untouched. -/
lemma add_copies_loop_entry (sh un : Bool) (src : List Entry) :
    ∀ (h : Heap) (dst : List Entry),
      ValidRefs h src → WellTagged h src → (tagsOf src).Nodup →
      ∀ (t : attr_type) (r : Nat) (a : AttributeContainer),
        (t, r) ∈ src → h.read r = some a →
        (((a.shared && sh) || (!a.shared && un)) = true →
          ∃ rc, lookupTag (add_copies_loop sh un h dst src).2 t = some rc ∧
            (add_copies_loop sh un h dst src).1.read rc = some a.copy ∧
            h.cells.length ≤ rc) ∧
        (((a.shared && sh) || (!a.shared && un)) = false →
          lookupTag (add_copies_loop sh un h dst src).2 t = lookupTag dst t) := by
  induction src with
  | nil => intro h dst _ _ _ t r a hmem _; cases hmem
  | cons p rest ih =>
    intro h dst hvalid htag hnd t r a hmem hread
    obtain ⟨t₀, r₀⟩ := p
    rw [tagsOf_cons, List.nodup_cons] at hnd
    have hvrest : ValidRefs h rest := fun q hq => hvalid q (List.mem_cons_of_mem _ hq)
    have htrest : WellTagged h rest := fun q hq => htag q (List.mem_cons_of_mem _ hq)
    rcases List.mem_cons.mp hmem with heq | hmemrest
    · -- the entry under consideration is the head of the source list
      obtain ⟨rfl, rfl⟩ := Prod.mk.injEq .. ▸ heq
      have htype : a.type = t := htag (t, r) (List.mem_cons_self _ _) a hread
      rw [add_copies_loop, hread]
      constructor
      · intro hpred
        simp only [hpred, if_true]
        refine ⟨h.cells.length, ?_, ?_, le_refl _⟩
        · rw [add_copies_loop_lookup_not_mem sh un rest _ _ t ?_ ?_ hnd.1]
          · rw [copy_type, htype]
            exact lookupTag_addPair_self _ _ _
          · intro q hq
            rw [Heap.length_alloc]
            exact Nat.lt_succ_of_lt (hvrest q hq)
          · intro q hq b hb
            rw [Heap.read_alloc_of_lt (hvrest q hq)] at hb
            exact htrest q hq b hb
        · rw [add_copies_loop_read_of_lt sh un rest _ _ _ ?_]
          · exact Heap.read_alloc_fresh h a.copy
          · rw [Heap.length_alloc]; omega
      · intro hpred
        simp only [hpred, Bool.false_eq_true, if_false]
        exact add_copies_loop_lookup_not_mem sh un rest h dst t hvrest htrest hnd.1
    · -- the entry under consideration lies further down the source list
      have htmem : t ∈ tagsOf rest := by
        simpa [tagsOf] using List.mem_map_of_mem Prod.fst hmemrest
      have hne : t ≠ t₀ := fun hx => hnd.1 (hx ▸ htmem)
      have hrlt : r < h.cells.length := hvalid (t, r) hmem
      rw [add_copies_loop]
      cases hread₀ : h.read r₀ with
      | none => exact ih h dst hvrest htrest hnd.2 t r a hmemrest hread
      | some a₀ =>
        have htype₀ : a₀.type = t₀ := htag (t₀, r₀) (List.mem_cons_self _ _) a₀ hread₀
        by_cases hpred₀ : ((a₀.shared && sh) || (!a₀.shared && un)) = true
        · simp only [hpred₀, if_true]
          have hvrest' : ValidRefs (h.alloc a₀.copy) rest := by
            intro q hq
            rw [Heap.length_alloc]
            exact Nat.lt_succ_of_lt (hvrest q hq)
          have htrest' : WellTagged (h.alloc a₀.copy) rest := by
            intro q hq b hb
            rw [Heap.read_alloc_of_lt (hvrest q hq)] at hb
            exact htrest q hq b hb
          have hread' : (h.alloc a₀.copy).read r = some a := by
            rw [Heap.read_alloc_of_lt hrlt]; exact hread
          have := ih (h.alloc a₀.copy) (addPair dst a₀.copy.type h.cells.length)
            hvrest' htrest' hnd.2 t r a hmemrest hread'
          refine ⟨fun hpred => ?_, fun hpred => ?_⟩
          · obtain ⟨rc, h1, h2, h3⟩ := this.1 hpred
            refine ⟨rc, h1, h2, ?_⟩
            rw [Heap.length_alloc] at h3
            omega
          · rw [this.2 hpred, copy_type, htype₀]
            exact lookupTag_addPair_ne dst hne _
        · simp only [Bool.not_eq_true] at hpred₀
          simp only [hpred₀, Bool.false_eq_true, if_false]
          exact ih h dst hvrest htrest hnd.2 t r a hmemrest hread

/-- With both filter flags false, the filtering copy loop changes nothing:
neither the heap nor the destination entry list. -/
lemma add_copies_loop_false_false (src : List Entry) :
    ∀ (h : Heap) (dst : List Entry),
      add_copies_loop false false h dst src = (h, dst) := by
  induction src with
  | nil => intro h dst; rfl
  | cons p rest ih =>
    intro h dst
    obtain ⟨t₀, r₀⟩ := p
    rw [add_copies_loop]
    cases hread : h.read r₀ with
    | none => exact ih h dst
    | some a => simp [ih h dst]

/-- The unconditional copy loop coincides with the filtering loop run with
both flags true. -/
lemma add_copies_all_loop_eq (src : List Entry) :
    ∀ (h : Heap) (dst : List Entry),
      add_copies_all_loop h dst src = add_copies_loop true true h dst src := by
  induction src with
  | nil => intro h dst; rfl
  | cons p rest ih =>
    intro h dst
    obtain ⟨t₀, r₀⟩ := p
    rw [add_copies_all_loop, add_copies_loop]
    cases hread : h.read r₀ with
    | none => exact ih h dst
    | some a =>
      have hp : ((a.shared && true) || (!a.shared && true)) = true := by
        cases a.shared <;> rfl
      simp only [hp, if_true]
      exact ih _ _

/-- The filtering copy loop preserves distinctness of the destination's tags. -/
lemma add_copies_loop_nodup (sh un : Bool) (src : List Entry) :
    ∀ (h : Heap) (dst : List Entry), (tagsOf dst).Nodup →
      (tagsOf (add_copies_loop sh un h dst src).2).Nodup := by
  induction src with
  | nil => intro h dst hd; simpa [add_copies_loop] using hd
  | cons p rest ih =>
    intro h dst hd
    obtain ⟨t₀, r₀⟩ := p
    rw [add_copies_loop]
    cases hread : h.read r₀ with
    | none => exact ih h dst hd
    | some a =>
      by_cases hpred : ((a.shared && sh) || (!a.shared && un)) = true
      · simp only [hpred, if_true]
        exact ih _ _ (nodup_tagsOf_addPair hd _ _)
      · simp only [Bool.not_eq_true] at hpred
        simp only [hpred, Bool.false_eq_true, if_false]
        exact ih h dst hd

/-- Each single mutating operation preserves distinctness of the stored tags. -/
lemma runOp_nodup (h : Heap) (s : Attributes) (op : AttrOp)
    (hs : (tagsOf s.attrs).Nodup) :
    (tagsOf ((runOp (h, s) op).2).attrs).Nodup := by
  cases op with
  | addOp r =>
    simp only [runOp, Attributes.add]
    cases hread : h.read r with
    | none => simpa using hs
    | some a => simpa using nodup_tagsOf_addPair hs a.type r
  | addCopiesOp src =>
    simp only [runOp, Attributes.add_copies]
    rw [add_copies_all_loop_eq]
    exact add_copies_loop_nodup true true src.attrs h s.attrs hs
  | addCopiesFilteredOp src sh un =>
    simp only [runOp, Attributes.add_copies_filtered]
    exact add_copies_loop_nodup sh un src.attrs h s.attrs hs
  | removeOp t =>
    simp only [runOp, Attributes.remove]
    exact (tagsOf_removePair_sublist s.attrs t).nodup hs

/-- Distinctness of the stored tags is preserved by every operation sequence. -/
lemma runOps_nodup (ops : List AttrOp) :
    ∀ st : Heap × Attributes, (tagsOf st.2.attrs).Nodup →
      (tagsOf ((runOps st ops).2).attrs).Nodup := by
  induction ops with
  | nil => intro st hst; simpa [runOps] using hst
  | cons op rest ih =>
    intro st hst
    have h1 : runOps st (op :: rest) = runOps (runOp st op) rest := rfl
    rw [h1]
    obtain ⟨h, s⟩ := st
    exact ih _ (runOp_nodup h s op hst)

/-- The shared/unshared classification table of §3 of the specification,
stated per tag (the spec side of the comparison for claim C8). -/
def sharedSpecTable : attr_type → Bool
  | .owner => true
  | .hitpoints => true
  | .damaged => false
  | .armor => true
  | .attack => false
  | .heal => true
  | .speed => true
  | .direction => false
  | .projectile => false
  | .building => false
  | .dropsite => true
  | .resource => false
  | .worker => true
  | .multitype => true
  | .garrison => false

/-! ### Claim theorems -/

/-- Claim C1: for every `Attributes` set and every sequence of the mutating
operations `add`, `add_copies` and `remove`, the set holds at most one entry
per `attr_type` tag at all times — distinctness of the stored tags is an
invariant of every operation sequence.  "At all times" follows because every
intermediate state is the run of a prefix of the sequence and hence itself an
instance of this theorem; the empty set the lifecycle starts from trivially
satisfies the hypothesis. -/
theorem attributes_at_most_one_entry_per_tag
    (h : Heap) (s : Attributes) (ops : List AttrOp)
    (hs : (tagsOf s.attrs).Nodup) :
    (tagsOf ((runOps (h, s) ops).2).attrs).Nodup :=
  runOps_nodup ops (h, s) hs

theorem attributes_at_most_one_entry_per_tag_witness :
    (tagsOf (Attributes.mk []).attrs).Nodup ∧
    (tagsOf ((runOps (Heap.mk [.damaged 5], Attributes.mk [])
        [.addOp 0, .addOp 0, .removeOp .damaged, .addOp 0]).2).attrs).Nodup :=
  ⟨by decide, attributes_at_most_one_entry_per_tag (Heap.mk [.damaged 5])
    (Attributes.mk []) [.addOp 0, .addOp 0, .removeOp .damaged, .addOp 0] (by decide)⟩

/-- Claim C2: the three-argument `add_copies` clones and adds a source entry
into self if and only if
`(entry.shared() && include_shared) || (!entry.shared() && include_unshared)`:
an entry passing the filter ends up stored as a member-wise copy in a fresh
cell, an entry failing it leaves the destination's binding for its tag
untouched, and with both flags false the call changes nothing at all (a no-op,
not an error). -/
theorem add_copies_filtered_correct
    (h : Heap) (dst src : Attributes) (sh un : Bool)
    (hvalid : ValidRefs h src.attrs) (htag : WellTagged h src.attrs)
    (hnd : (tagsOf src.attrs).Nodup)
    (t : attr_type) (r : Nat) (a : AttributeContainer)
    (hmem : (t, r) ∈ src.attrs) (hread : h.read r = some a) :
    (((a.shared && sh) || (!a.shared && un)) = true →
      ∃ rc, (dst.add_copies_filtered h src sh un).2.get t = some rc ∧
        (dst.add_copies_filtered h src sh un).1.read rc = some a.copy) ∧
    (((a.shared && sh) || (!a.shared && un)) = false →
      (dst.add_copies_filtered h src sh un).2.get t = dst.get t) ∧
    (dst.add_copies_filtered h src false false = (h, dst)) := by
  have hmain := add_copies_loop_entry sh un src.attrs h dst.attrs hvalid htag hnd
    t r a hmem hread
  refine ⟨fun hp => ?_, fun hp => ?_, ?_⟩
  · obtain ⟨rc, hl, hr, _⟩ := hmain.1 hp
    exact ⟨rc, hl, hr⟩
  · exact hmain.2 hp
  · show ((add_copies_loop false false h dst.attrs src.attrs).1,
      Attributes.mk (add_copies_loop false false h dst.attrs src.attrs).2) = (h, dst)
    rw [add_copies_loop_false_false]

theorem add_copies_filtered_correct_witness :
    ((((AttributeContainer.speed 2).shared && true)
        || (!(AttributeContainer.speed 2).shared && false)) = true →
      ∃ rc, ((Attributes.mk []).add_copies_filtered (Heap.mk [.speed 2, .damaged 9])
          (Attributes.mk [(.speed, 0), (.damaged, 1)]) true false).2.get .speed
          = some rc ∧
        ((Attributes.mk []).add_copies_filtered (Heap.mk [.speed 2, .damaged 9])
          (Attributes.mk [(.speed, 0), (.damaged, 1)]) true false).1.read rc
          = some (AttributeContainer.speed 2).copy) ∧
    ((((AttributeContainer.speed 2).shared && true)
        || (!(AttributeContainer.speed 2).shared && false)) = false →
      ((Attributes.mk []).add_copies_filtered (Heap.mk [.speed 2, .damaged 9])
        (Attributes.mk [(.speed, 0), (.damaged, 1)]) true false).2.get .speed
        = (Attributes.mk []).get .speed) ∧
    ((Attributes.mk []).add_copies_filtered (Heap.mk [.speed 2, .damaged 9])
      (Attributes.mk [(.speed, 0), (.damaged, 1)]) false false
      = (Heap.mk [.speed 2, .damaged 9], Attributes.mk [])) :=
  add_copies_filtered_correct (Heap.mk [.speed 2, .damaged 9]) (Attributes.mk [])
    (Attributes.mk [(.speed, 0), (.damaged, 1)]) true false
    (by decide) (by decide) (by decide) .speed 0 (.speed 2) (by decide) (by decide)

/-- Claim C3: deep-copy independence — after `B.add_copies(A)`, the value `B`
stores for tag `t` lives in a freshly allocated cell holding the member-wise
copy of `A`'s container: mutating the object `A` stores (writing any new
container state into `A`'s cell, e.g. assigning the resource attribute's
`amount`) leaves `B`'s stored value unchanged, and mutating `B`'s cell leaves
`A`'s stored value unchanged — the clone aliases no mutable state with the
source. -/
theorem add_copies_deep_copy_independent
    (h : Heap) (A B : Attributes)
    (hvalid : ValidRefs h A.attrs) (htag : WellTagged h A.attrs)
    (hnd : (tagsOf A.attrs).Nodup)
    (t : attr_type) (r : Nat) (a : AttributeContainer)
    (hmem : (t, r) ∈ A.attrs) (hread : h.read r = some a) :
    ∃ rc, (B.add_copies h A).2.get t = some rc ∧
      (B.add_copies h A).1.read rc = some a.copy ∧
      rc ≠ r ∧
      ∀ b : AttributeContainer,
        ((B.add_copies h A).1.write r b).read rc = some a.copy ∧
        ((B.add_copies h A).1.write rc b).read r = some a := by
  have hpred : ((a.shared && true) || (!a.shared && true)) = true := by
    cases a.shared <;> rfl
  obtain ⟨rc, hl, hr, hfresh⟩ := (add_copies_loop_entry true true A.attrs h B.attrs
    hvalid htag hnd t r a hmem hread).1 hpred
  have hrlt : r < h.cells.length := Heap.read_lt_length hread
  have hne : rc ≠ r := by omega
  have heq : (B.add_copies h A).1 = (add_copies_loop true true h B.attrs A.attrs).1 := by
    show (add_copies_all_loop h B.attrs A.attrs).1 = _
    rw [add_copies_all_loop_eq]
  have hget : (B.add_copies h A).2.get t = some rc := by
    show lookupTag (add_copies_all_loop h B.attrs A.attrs).2 t = some rc
    rw [add_copies_all_loop_eq]
    exact hl
  refine ⟨rc, hget, ?_, hne, fun b => ⟨?_, ?_⟩⟩
  · rw [heq]; exact hr
  · rw [heq, Heap.read_write_ne hne.symm b]; exact hr
  · rw [heq, Heap.read_write_ne hne b,
      add_copies_loop_read_of_lt true true A.attrs h B.attrs r hrlt]
    exact hread

theorem add_copies_deep_copy_independent_witness :
    ∃ rc, ((Attributes.mk []).add_copies (Heap.mk [.resource 1 5])
        (Attributes.mk [(.resource, 0)])).2.get .resource = some rc ∧
      ((Attributes.mk []).add_copies (Heap.mk [.resource 1 5])
        (Attributes.mk [(.resource, 0)])).1.read rc
        = some (AttributeContainer.resource 1 5).copy ∧
      rc ≠ 0 ∧
      ∀ b : AttributeContainer,
        (((Attributes.mk []).add_copies (Heap.mk [.resource 1 5])
          (Attributes.mk [(.resource, 0)])).1.write 0 b).read rc
          = some (AttributeContainer.resource 1 5).copy ∧
        (((Attributes.mk []).add_copies (Heap.mk [.resource 1 5])
          (Attributes.mk [(.resource, 0)])).1.write rc b).read 0
          = some (AttributeContainer.resource 1 5) :=
  add_copies_deep_copy_independent (Heap.mk [.resource 1 5])
    (Attributes.mk [(.resource, 0)]) (Attributes.mk [])
    (by decide) (by decide) (by decide) .resource 0 (.resource 1 5)
    (by decide) (by decide)

/-- Claim C4: for every tag `T` and value `v` with `v.type == T`, immediately
after `set.add(v)` the query `has(T)` returns true and `get(T)` yields exactly
the stored value `v` (the very container that was added). -/
theorem add_then_has_and_get
    (h : Heap) (s : Attributes) (r : Nat) (a : AttributeContainer)
    (T : attr_type) (hread : h.read r = some a) (htype : a.type = T) :
    ((s.add h r).has T = true) ∧ ((s.add h r).getValue h T = some a) := by
  have hl : lookupTag (addPair s.attrs a.type r) T = some r := by
    rw [← htype]
    exact lookupTag_addPair_self s.attrs a.type r
  constructor
  · simp only [Attributes.add, hread, Attributes.has, hl, Option.isSome_some]
  · simp only [Attributes.add, hread, Attributes.getValue, hl]

theorem add_then_has_and_get_witness :
    (((Attributes.mk []).add (Heap.mk [.speed 3]) 0).has .speed = true) ∧
    (((Attributes.mk []).add (Heap.mk [.speed 3]) 0).getValue
      (Heap.mk [.speed 3]) .speed = some (.speed 3)) :=
  add_then_has_and_get (Heap.mk [.speed 3]) (Attributes.mk []) 0 (.speed 3) .speed
    (by decide) (by decide)

/-- Claim C5: adding `v` then `w` with the same tag leaves exactly one entry
for that tag and `get` yields only `w` — last-write-wins replacement, no
merge.  (`add` is modelled as a total function: it always succeeds and
signals no error.) -/
theorem add_same_tag_replaces
    (h : Heap) (s : Attributes) (r₁ r₂ : Nat) (a b : AttributeContainer)
    (t : attr_type) (hnd : (tagsOf s.attrs).Nodup)
    (h₁ : h.read r₁ = some a) (h₂ : h.read r₂ = some b)
    (_ht₁ : a.type = t) (ht₂ : b.type = t) :
    (countTag ((s.add h r₁).add h r₂).attrs t = 1) ∧
    (((s.add h r₁).add h r₂).getValue h t = some b) := by
  simp only [Attributes.add, h₁, h₂]
  have hnd1 : (tagsOf (addPair s.attrs a.type r₁)).Nodup :=
    nodup_tagsOf_addPair hnd a.type r₁
  have hl : lookupTag (addPair (addPair s.attrs a.type r₁) b.type r₂) t = some r₂ := by
    rw [← ht₂]
    exact lookupTag_addPair_self _ b.type r₂
  constructor
  · rw [← ht₂]
    exact countTag_addPair_of_nodup hnd1 b.type r₂
  · simp only [Attributes.getValue, hl]
    exact h₂

theorem add_same_tag_replaces_witness :
    (countTag (((Attributes.mk []).add (Heap.mk [.damaged 100, .damaged 40]) 0).add
      (Heap.mk [.damaged 100, .damaged 40]) 1).attrs .damaged = 1) ∧
    ((((Attributes.mk []).add (Heap.mk [.damaged 100, .damaged 40]) 0).add
      (Heap.mk [.damaged 100, .damaged 40]) 1).getValue
      (Heap.mk [.damaged 100, .damaged 40]) .damaged = some (.damaged 40)) :=
  add_same_tag_replaces (Heap.mk [.damaged 100, .damaged 40]) (Attributes.mk [])
    0 1 (.damaged 100) (.damaged 40) .damaged
    (by decide) (by decide) (by decide) (by decide) (by decide)

/-- Claim C6: `remove(T)` returns true iff an entry for `T` was present; on an
absent tag it returns false and leaves the set entirely unchanged (same entry
list, hence same size and contents); on a present tag it returns true and
afterwards `has(T)` is false. -/
theorem remove_spec
    (s : Attributes) (t : attr_type) (hnd : (tagsOf s.attrs).Nodup) :
    ((s.remove t).2 = s.has t) ∧
    (s.has t = false → (s.remove t).1 = s) ∧
    (s.has t = true → (s.remove t).1.has t = false) := by
  refine ⟨rfl, fun habs => ?_, fun _ => ?_⟩
  · have hnone : lookupTag s.attrs t = none := by
      cases hl : lookupTag s.attrs t with
      | none => rfl
      | some r =>
        rw [Attributes.has, hl] at habs
        cases habs
    have hnm := (lookupTag_eq_none_iff s.attrs t).1 hnone
    show Attributes.mk (removePair s.attrs t) = s
    rw [removePair_of_not_mem hnm]
  · show (Attributes.mk (removePair s.attrs t)).has t = false
    rw [Attributes.has, lookupTag_removePair_self hnd t]
    rfl

theorem remove_spec_witness :
    (((Attributes.mk [(.garrison, 0)]).remove .garrison).2
      = (Attributes.mk [(.garrison, 0)]).has .garrison) ∧
    ((Attributes.mk [(.garrison, 0)]).has .garrison = false →
      ((Attributes.mk [(.garrison, 0)]).remove .garrison).1
        = Attributes.mk [(.garrison, 0)]) ∧
    ((Attributes.mk [(.garrison, 0)]).has .garrison = true →
      ((Attributes.mk [(.garrison, 0)]).remove .garrison).1.has .garrison = false) :=
  remove_spec (Attributes.mk [(.garrison, 0)]) .garrison (by decide)

/-- Claim C7: for every concrete attribute variant and every instance, the
clone produced by `copy()` has the same `type` tag and the same `shared()`
classification as the original — cloning never changes either. -/
theorem copy_preserves_type_and_shared (a : AttributeContainer) :
    (a.copy.type = a.type) ∧ (a.copy.shared = a.shared) :=
  ⟨copy_type a, copy_shared a⟩

/-- Claim C8, counterexample to the stated variant count: the program's
`attr_type` enumeration (and with it the set of concrete variants the
classification table covers) has 15 members, not 14. -/
theorem attr_type_has_fifteen_variants_not_fourteen :
    (Fintype.card attr_type = 15) ∧ ¬ (Fintype.card attr_type = 14) := by
  constructor <;> decide

/-- Claim C8 (amended: the table covers all 15 variants, not 14): `shared()`
is a constant of the concrete variant, equal to the §3 table's entry for its
tag — true for owner, hitpoints, armor, heal, speed, dropsite, worker and
multitype, false for damaged, attack, direction, projectile, building,
resource and garrison — for every instance; `shared` is a function of the
variant alone, so it can never be toggled at runtime. -/
theorem shared_matches_spec_table (a : AttributeContainer) :
    a.shared = sharedSpecTable a.type := by
  cases a <;> rfl

/-- Claim C9: the two-argument `add_copies(source)` produces exactly the same
destination state (heap and set alike) as the three-argument
`add_copies(source, true, true)`. -/
theorem add_copies_equals_filtered_true_true
    (h : Heap) (s other : Attributes) :
    s.add_copies h other = s.add_copies_filtered h other true true := by
  simp only [Attributes.add_copies, Attributes.add_copies_filtered,
    add_copies_all_loop_eq]

/-- Claim C10: a newly constructed projectile attribute has its `launched`
flag equal to `false` and its `projectile_arc` equal to the given arc; the
constructor is the only initializer, so the flag cannot be true before being
explicitly set after construction. -/
theorem projectile_ctor_launched_false_arc_set (arc : Rat) :
    ((mkProjectileAttribute arc).launched = some false) ∧
    ((mkProjectileAttribute arc).projectile_arc = some arc) :=
  ⟨rfl, rfl⟩

end OpenageAttr
